import Mathlib

/-!
Verification development for the reflux core (`src/reflux.ts`).

The development shallowly embeds the three parts of the engine that the
properties below are about:

* the immutable state values and the deep-merge operation used by
  `Action.dispatch` (`Reflux.state.merge(state, { deep: true })`, backed by
  seamless-immutable);
* the dispatch pipeline of `Action.dispatch` (lines 207-265): the rxjs chain
  `Observable.from(subscriptions).flatMap(...).map(merge).skipWhile(...)
  .map(publish).catch(_ => Observable.empty()).share()` wrapped in a Promise;
* the change-notification layer: `StateStream.select` (lines 88-106) over a
  `BehaviorSubject`, and the `select` helper (lines 109-117);
* the identity table of `Action.identity` (lines 177-184).
-/

/-! ## State values

`Val` models the immutable JSON-like state values handled by the engine
(seamless-immutable wrappers around plain objects and scalars).  An object is
an ordered list of key/value fields, as JavaScript object keys are ordered. -/

mutual

inductive Val where
  | vInt (n : Int)
  | vStr (s : String)
  | vObj (fields : Fields)
deriving DecidableEq

inductive Fields where
  | nil
  | cons (key : String) (value : Val) (rest : Fields)
deriving DecidableEq

end

/-- Property lookup on an object: the value of the first field named `k`. -/
def Fields.lookup : Fields → String → Option Val
  | Fields.nil, _ => none
  | Fields.cons k0 v0 rest, k => if k0 = k then some v0 else Fields.lookup rest k

/-- `result[k] = w` on an object: overwrite the existing field named `k` in
place, or append a fresh field at the end (JavaScript assignment semantics,
which is what seamless-immutable's merge does key by key). -/
def Fields.setKey : Fields → String → Val → Fields
  | Fields.nil, k, w => Fields.cons k w Fields.nil
  | Fields.cons k0 v0 rest, k, w =>
      if k0 = k then Fields.cons k0 w rest else Fields.cons k0 v0 (Fields.setKey rest k w)

mutual

/-- seamless-immutable `current.merge(incoming, { deep: true })`, the merge
used by `Action.dispatch` (line 237): when both sides are mapping objects the
incoming keys are merged into the current object recursively; in every other
case the incoming value replaces the current one.  The engine only ever calls
the top-level merge with mapping values on both sides (handler results in the
source's documented usage are partial state objects); inner non-mapping leaf
values are replaced by the incoming leaf. -/
def Val.deepMerge : Val → Val → Val
  | Val.vObj f1, Val.vObj f2 => Val.vObj (Fields.mergeFields f1 f2)
  | _, b => b

/-- Key-wise part of the deep merge: walk the incoming fields left to right,
assigning each key into the accumulated object (recursively merged when the
current object already holds a mergeable value at that key). -/
def Fields.mergeFields (cur : Fields) : Fields → Fields
  | Fields.nil => cur
  | Fields.cons k w rest =>
      let merged := match Fields.lookup cur k with
        | some v => Val.deepMerge v w
        | none => w
      Fields.mergeFields (Fields.setKey cur k merged) rest

end

/-- The key list of an object, in order. -/
def Fields.keys : Fields → List String
  | Fields.nil => []
  | Fields.cons k _ rest => k :: Fields.keys rest

/-- A JavaScript object never holds two fields with the same key. -/
def Fields.NodupKeys (f : Fields) : Prop := f.keys.Nodup

instance (f : Fields) : Decidable (Fields.NodupKeys f) := by
  unfold Fields.NodupKeys; infer_instance

/-- Whether a value is a mapping object (the only values seamless-immutable's
`merge` accepts as top-level arguments). -/
def Val.isObj : Val → Bool
  | Val.vObj _ => true
  | _ => false

/-! ## The dispatch pipeline of `Action.dispatch`

One handler (an `ActionObserver` registered through `Action.subscribe`) is
invoked once per dispatch with the current global state and returns an
`Observable`.  Following the source's documented handler shape
(`observer.next(value); observer.complete()`), a handler's observable is
modelled as producing exactly one emission or one error, either synchronously
at subscribe time or asynchronously later. -/

/-- One emission of a handler observable, as classified by the merge stage of
`Action.dispatch` (lines 227-240): either a plain value (merged) or a
`ReplaceableState` wrapper (replaces).  `none` models the JavaScript value
`undefined`. -/
inductive EmitKind where
  | value (v : Option Val)
  | replace (v : Option Val)
deriving DecidableEq

/-- What a handler does when invoked (line 219): return a non-`Observable`
(which makes line 221 throw), or an observable that emits once or errors,
synchronously at subscribe time or asynchronously later. -/
inductive HOutcome where
  | notObservable
  | syncEmit (r : EmitKind)
  | syncError
  | asyncEmit (r : EmitKind)
  | asyncError
deriving DecidableEq

/-- A registered handler: invoked with the current value of `Reflux.state`
(line 219; the action argument carries no state and is not modelled). -/
def Handler := Val → HOutcome

/-- A handler observable still running after the synchronous invocation pass:
it will later deliver one emission or an error. -/
inductive Pending where
  | emit (r : EmitKind)
  | err
deriving DecidableEq

/-- The mutable engine state threaded through one dispatch: the global
`Reflux.state`, the number of emissions seen so far (the `skipWhile` index),
and the values pushed to `Reflux.stateStream` so far. -/
structure EngineState where
  st : Val
  emitted : Nat
  publishes : List Val
deriving DecidableEq

/-- The merge stage (`.map`, lines 227-240) applied to `Reflux.state`: a
`ReplaceableState` with a defined inner value replaces the state outright, a
`ReplaceableState` wrapping `undefined` returns early leaving the state
untouched, a defined plain value is deep-merged, and `undefined` contributes
nothing. -/
def EmitKind.mergeStep (s : Val) : EmitKind → Val
  | EmitKind.replace (some v) => v
  | EmitKind.replace none => s
  | EmitKind.value (some v) => s.deepMerge v
  | EmitKind.value none => s

/-- Whether the merge stage's return value for this emission is defined: the
publish stage (lines 246-251) pushes to the state stream only when it is. -/
def EmitKind.mappedDefined : EmitKind → Bool
  | EmitKind.value (some _) => true
  | EmitKind.replace (some _) => true
  | _ => false

/-- Process one emission through the merge stage, the stateful
`skipWhile((state, i) => i + 1 < subscriptions.length)` (line 243), and the
publish stage: emissions numbered below `n - 1` are skipped; from the `n`-th
emission on, a defined mapped value pushes the (already updated) global state
to the state stream. -/
def processEmission (n : Nat) (es : EngineState) (r : EmitKind) : EngineState :=
  let st := EmitKind.mergeStep es.st r
  let pass := decide (es.emitted + 1 ≥ n)
  let pubs := if pass && EmitKind.mappedDefined r then es.publishes ++ [st] else es.publishes
  ⟨st, es.emitted + 1, pubs⟩

/-- Result of the synchronous pass of a dispatch: the engine state after all
synchronous emissions, the state value each handler observed as its first
argument (in registration order), the observables still pending, and whether
an error already tore the pipeline down. -/
structure Phase1Result where
  es : EngineState
  observations : List Val
  pending : List Pending
  aborted : Bool

/-- The synchronous pass of `Action.dispatch`: `Observable.from(subscriptions)`
emits the handlers in registration order and `flatMap` invokes each with the
global state current at that moment (line 219).  A handler returning a
non-`Observable` throws (line 221) and a synchronously erroring observable
errors the merged stream; either aborts the pass, skips the remaining
handlers, and unsubscribes every pending observable.  A synchronous emission
flows through the merge/skipWhile/publish stages immediately, before the next
handler is invoked. -/
def runPhase1 (n : Nat) : List Handler → EngineState → Phase1Result
  | [], es => ⟨es, [], [], false⟩
  | h :: rest, es =>
    match h es.st with
    | HOutcome.notObservable => ⟨es, [es.st], [], true⟩
    | HOutcome.syncError => ⟨es, [es.st], [], true⟩
    | HOutcome.syncEmit r =>
        let p := runPhase1 n rest (processEmission n es r)
        ⟨p.es, es.st :: p.observations, p.pending, p.aborted⟩
    | HOutcome.asyncEmit r =>
        let p := runPhase1 n rest es
        ⟨p.es, es.st :: p.observations, Pending.emit r :: p.pending, p.aborted⟩
    | HOutcome.asyncError =>
        let p := runPhase1 n rest es
        ⟨p.es, es.st :: p.observations, Pending.err :: p.pending, p.aborted⟩

/-- The asynchronous pass: pending results are processed strictly in the order
they arrive on the event loop.  An arriving error terminates the merged
observable; the remaining pending observables are unsubscribed and their
results discarded, while everything already merged or published stays. -/
def runArrivals (n : Nat) : List Pending → EngineState → EngineState × Bool
  | [], es => (es, false)
  | Pending.err :: _, es => (es, true)
  | Pending.emit r :: rest, es => runArrivals n rest (processEmission n es r)

/-- An arrival schedule: `ord` lists positions into the pending list in
wall-clock completion order (a permutation of the pending positions for a real
schedule). -/
def arrangeBy (ord : List Nat) (ps : List Pending) : List Pending :=
  ord.filterMap fun i => ps[i]?

/-- Terminal event of an rxjs observable. -/
inductive Terminal where
  | completes
  | errors
deriving DecidableEq

/-- The `.catch((error) => Observable.empty())` stage (line 254): an error is
swallowed and replaced by an immediately completing observable, so the
downstream subscriber only ever sees completion. -/
def afterCatch : Terminal → Terminal
  | Terminal.errors => Terminal.completes
  | Terminal.completes => Terminal.completes

/-- Whether a terminal event is an error. -/
def Terminal.isError : Terminal → Bool
  | Terminal.errors => true
  | Terminal.completes => false

/-- The outcome of one `dispatch()` call, as observable from outside: the
final `Reflux.state`, the snapshots pushed to `Reflux.stateStream`, the state
each handler was invoked with, and how the returned Promise settled. -/
structure DispatchResult where
  finalState : Val
  publishes : List Val
  observations : List Val
  resolved : Bool
  rejected : Bool
deriving DecidableEq

/-- `new Promise((resolve, reject) => observable.subscribe(noop, reject,
resolve))` (lines 259-264): the promise rejects exactly when the observable
(after the catch stage) errors and resolves when it completes. -/
def mkResult (es : EngineState) (obs : List Val) (t : Terminal) : DispatchResult :=
  ⟨es.st, es.publishes, obs, !(afterCatch t).isError, (afterCatch t).isError⟩

/-- `Action.dispatch` (lines 207-265) for a fixed list of registered handlers,
arrival schedule `ord`, and pre-dispatch state `s0`.  With no handlers the
promise resolves immediately with no state change (lines 211-213).  Otherwise
the synchronous pass runs, then pending results arrive per `ord`; the pipeline
terminal event feeds the catch stage and then the promise. -/
def dispatch (handlers : List Handler) (ord : List Nat) (s0 : Val) : DispatchResult :=
  if handlers.isEmpty then ⟨s0, [], [], true, false⟩
  else
    let n := handlers.length
    let p := runPhase1 n handlers ⟨s0, 0, []⟩
    if p.aborted then mkResult p.es p.observations Terminal.errors
    else
      let r2 := runArrivals n (arrangeBy ord p.pending) p.es
      mkResult r2.1 p.observations (if r2.2 then Terminal.errors else Terminal.completes)

/-! ## Handler constructors used in the statements below -/

/-- A handler whose behaviour does not depend on the state it observes. -/
def constHandler (o : HOutcome) : Handler := fun _ => o

/-- A handler that asynchronously emits the plain partial state `v`. -/
def mkAsyncValueHandler (v : Val) : Handler :=
  fun _ => HOutcome.asyncEmit (EmitKind.value (some v))

/-- A handler that asynchronously emits `new ReplaceableState(v)`. -/
def mkReplaceHandler (v : Val) : Handler :=
  fun _ => HOutcome.asyncEmit (EmitKind.replace (some v))

/-- A handler that asynchronously emits the given emission kind. -/
def asyncEmitHandler (r : EmitKind) : Handler := fun _ => HOutcome.asyncEmit r

/-- Whether an invocation outcome is asynchronous (nothing happens during the
synchronous pass beyond registering the pending observable). -/
def HOutcome.isAsync : HOutcome → Bool
  | HOutcome.asyncEmit _ => true
  | HOutcome.asyncError => true
  | _ => false

/-- The pending entry left by an asynchronous outcome (meaningful only for
asynchronous outcomes). -/
def HOutcome.toPending : HOutcome → Pending
  | HOutcome.asyncEmit r => Pending.emit r
  | _ => Pending.err

/-- Whether a pending entry is an emission rather than an error. -/
def Pending.isEmit : Pending → Bool
  | Pending.emit _ => true
  | Pending.err => false

/-- The emission kinds of a pending list, errors dropped. -/
def kindsOf (ps : List Pending) : List EmitKind :=
  ps.filterMap fun p => match p with
    | Pending.emit r => some r
    | Pending.err => none

/-- The emissions an arrival sequence delivers before its first error: the
merged observable is torn down at the first error, so nothing after it is
processed. -/
def emitsBeforeError (ps : List Pending) : List EmitKind :=
  kindsOf (ps.takeWhile Pending.isEmit)

/-- Apply a sequence of emissions to a state through the merge stage. -/
def applyEmits (s : Val) (ks : List EmitKind) : Val :=
  ks.foldl EmitKind.mergeStep s

/-- Whether an emission kind stays inside the model's faithful domain: the
top-level argument of seamless-immutable's `merge` must be a mapping object,
so a defined plain emission (and, to keep later merges well-formed, a defined
replacement) is required to be a mapping. -/
def EmitKind.objLike : EmitKind → Bool
  | EmitKind.value (some v) => v.isObj
  | EmitKind.replace (some v) => v.isObj
  | _ => true

/-- Whether an invocation outcome stays inside the model's faithful domain
(see `EmitKind.objLike`). -/
def HOutcome.objLike : HOutcome → Bool
  | HOutcome.syncEmit r => r.objLike
  | HOutcome.asyncEmit r => r.objLike
  | _ => true

/-! ## The change-notification layer: `StateStream.select`

JavaScript values as seen by the `!==` comparison on line 95: `undefined` and
numbers compare by value, objects compare by reference identity.  An object is
modelled as a structural content (`Val`) tagged with an allocation identity;
two distinct allocations carry distinct tags even when structurally equal. -/

inductive JVal where
  | undef
  | num (n : Int)
  | obj (id : Nat) (content : Val)
deriving DecidableEq

/-- JavaScript strict equality `===` on the modelled values: value equality on
`undefined` and numbers, reference identity on objects. -/
def JVal.strictEq : JVal → JVal → Bool
  | JVal.undef, JVal.undef => true
  | JVal.num a, JVal.num b => a == b
  | JVal.obj i _, JVal.obj j _ => i == j
  | _, _ => false

/-- Value/structural equality on the modelled values: objects compare by
content, ignoring allocation identity. -/
def JVal.structEq : JVal → JVal → Bool
  | JVal.undef, JVal.undef => true
  | JVal.num a, JVal.num b => a == b
  | JVal.obj _ c, JVal.obj _ d => c == d
  | _, _ => false

/-- A selector passed to `StateStream.select`; `none` models the selector
throwing on that state. -/
def StateSelector := JVal → Option JVal

/-- The module-level `select` helper (lines 109-117): `undefined` state gives
`undefined`, a throwing selector gives `undefined`, otherwise the selector's
result.  (The `selector == undefined` branch is not modelled: `select` is
always called with the selector handed to `StateStream.select`.) -/
def select (state : JVal) (sel : StateSelector) : JVal :=
  match state with
  | JVal.undef => JVal.undef
  | s =>
    match sel s with
    | some v => v
    | none => JVal.undef

/-- Per-subscription state of `StateStream.select` (lines 90-104): the
captured `previousState` variable (initially `undefined`) and the values
delivered to the subscriber so far. -/
structure SelectSub where
  previousState : JVal
  notifications : List JVal
deriving DecidableEq

/-- One state delivery to a `select` subscription (lines 93-99): compute the
projection; if it is strictly unequal (`!==`) to the projection of the stored
previous state, store the state and notify with the projection, else do
nothing. -/
def selectStep (sel : StateSelector) (ss : SelectSub) (state : JVal) : SelectSub :=
  let selection := select state sel
  if JVal.strictEq selection (select ss.previousState sel) then ss
  else ⟨state, ss.notifications ++ [selection]⟩

/-- The notifications a `select` subscription delivers over a sequence of
incoming states, starting from a fresh subscription. -/
def runSelect (sel : StateSelector) (states : List JVal) : List JVal :=
  (states.foldl (selectStep sel) ⟨JVal.undef, []⟩).notifications

/-- `StateStream` extends rxjs `BehaviorSubject` (line 79), which synchronously
replays its current value to every new subscriber; a subscription created while
the stream holds `current` therefore sees `current` followed by the states
published afterwards. -/
def subscribeNotifications (sel : StateSelector) (current : JVal) (published : List JVal) :
    List JVal :=
  runSelect sel (current :: published)

/-! ## The identity table of `Action.identity` -/

/-- `Array.prototype.indexOf` on the identity table, with constructors
abstracted as numbers (`none` models the JavaScript result `-1`). -/
def idxOf : List Nat → Nat → Option Nat
  | [], _ => none
  | c0 :: rest, c => if c0 = c then some 0 else (idxOf rest c).map (· + 1)

/-- The `identity` getter (lines 177-184): look the constructor up in
`Reflux.actionIdentities`; if absent, push it and look it up again; return
`"c" + index` together with the (possibly extended) table. -/
def identityOf (table : List Nat) (c : Nat) : String × List Nat :=
  match idxOf table c with
  | some i => ("c" ++ toString i, table)
  | none =>
    let t := table ++ [c]
    (match idxOf t c with
     | some i => "c" ++ toString i
     | none => "", t)

/-- The identity table after a sequence of `identity` reads (each read is the
only operation that mutates `Reflux.actionIdentities`). -/
def runIdentities (calls : List Nat) (table : List Nat) : List Nat :=
  calls.foldl (fun t c => (identityOf t c).2) table

/-! ## Concrete values used in the statements below -/

/-- The initial state `Immutable.from({})` (line 125). -/
def objEmpty : Val := Val.vObj Fields.nil

/-- The object `{a:1}`. -/
def objA1 : Val := Val.vObj (Fields.cons "a" (Val.vInt 1) Fields.nil)

/-- The object `{b:2}`. -/
def objB2 : Val := Val.vObj (Fields.cons "b" (Val.vInt 2) Fields.nil)

/-- The object `{k:1}`. -/
def objK1 : Val := Val.vObj (Fields.cons "k" (Val.vInt 1) Fields.nil)

/-- The object `{k:2}`. -/
def objK2 : Val := Val.vObj (Fields.cons "k" (Val.vInt 2) Fields.nil)

/-- The object `{a:1,b:{c:2}}`. -/
def preAB : Val :=
  Val.vObj (Fields.cons "a" (Val.vInt 1)
    (Fields.cons "b" (Val.vObj (Fields.cons "c" (Val.vInt 2) Fields.nil)) Fields.nil))

/-- The object `{b:{d:3}}`. -/
def incBD : Val :=
  Val.vObj (Fields.cons "b" (Val.vObj (Fields.cons "d" (Val.vInt 3) Fields.nil)) Fields.nil)

/-- The object `{a:1,b:{c:2,d:3}}`. -/
def mergedABCD : Val :=
  Val.vObj (Fields.cons "a" (Val.vInt 1)
    (Fields.cons "b" (Val.vObj (Fields.cons "c" (Val.vInt 2)
      (Fields.cons "d" (Val.vInt 3) Fields.nil))) Fields.nil))

/-- The object `{x:9}`. -/
def objX9 : Val := Val.vObj (Fields.cons "x" (Val.vInt 9) Fields.nil)

/-- The object `{count:1}`. -/
def cnt1 : Val := Val.vObj (Fields.cons "count" (Val.vInt 1) Fields.nil)

/-- The object `{count:2}`. -/
def cnt2 : Val := Val.vObj (Fields.cons "count" (Val.vInt 2) Fields.nil)

/-- The identity selector `s => s`. -/
def idSel : StateSelector := fun s => some s

/-- The selector `s => s.count`: a number property reads as a number, a
missing or non-number property as `undefined`; property access on a
non-object primitive yields `undefined` in JavaScript. -/
def countSel : StateSelector := fun s =>
  match s with
  | JVal.obj _ (Val.vObj f) =>
      some (match Fields.lookup f "count" with
        | some (Val.vInt n) => JVal.num n
        | _ => JVal.undef)
  | JVal.undef => none
  | _ => some JVal.undef

/-! ## Helper lemmas -/

/-- After the catch stage the pipeline can only complete. -/
theorem afterCatch_completes (t : Terminal) : afterCatch t = Terminal.completes := by
  cases t <;> rfl

/-- Whatever the pipeline's own terminal event, the promise resolves. -/
theorem mkResult_flags (es : EngineState) (obs : List Val) (t : Terminal) :
    (mkResult es obs t).rejected = false ∧ (mkResult es obs t).resolved = true := by
  cases t <;> exact ⟨rfl, rfl⟩

/-- When every handler is asynchronous, the synchronous pass changes nothing:
every handler observes the same engine state, and each contributes its pending
observable in registration order. -/
theorem runPhase1_async (n : Nat) (hs : List Handler) (es : EngineState)
    (hall : ∀ h ∈ hs, ∀ s, HOutcome.isAsync (h s) = true) :
    runPhase1 n hs es =
      ⟨es, hs.map fun _ => es.st, hs.map fun h => HOutcome.toPending (h es.st), false⟩ := by
  induction hs generalizing es with
  | nil => rfl
  | cons h rest ih =>
    have hh : HOutcome.isAsync (h es.st) = true := hall h (List.mem_cons_self h rest) es.st
    have hrest : ∀ g ∈ rest, ∀ s, HOutcome.isAsync (g s) = true :=
      fun g hg s => hall g (List.mem_cons_of_mem h hg) s
    cases hout : h es.st with
    | notObservable => rw [hout] at hh; simp [HOutcome.isAsync] at hh
    | syncEmit r => rw [hout] at hh; simp [HOutcome.isAsync] at hh
    | syncError => rw [hout] at hh; simp [HOutcome.isAsync] at hh
    | asyncEmit r =>
      simp only [runPhase1, hout, ih es hrest, List.map_cons, HOutcome.toPending]
    | asyncError =>
      simp only [runPhase1, hout, ih es hrest, List.map_cons, HOutcome.toPending]

/-- The state after the asynchronous pass is the fold of the merge stage over
the emissions that arrive before the first error. -/
theorem runArrivals_st (n : Nat) (ps : List Pending) (es : EngineState) :
    ((runArrivals n ps es).1).st = applyEmits es.st (emitsBeforeError ps) := by
  induction ps generalizing es with
  | nil => rfl
  | cons p rest ih =>
    cases p with
    | err =>
      simp [runArrivals, emitsBeforeError, kindsOf, Pending.isEmit, applyEmits,
        List.takeWhile]
    | emit r =>
      simp only [runArrivals, ih, emitsBeforeError, kindsOf, List.takeWhile,
        Pending.isEmit, List.filterMap_cons, applyEmits, List.foldl_cons]
      rfl

/-- Arrival sequences made only of emissions deliver exactly their kinds. -/
theorem emitsBeforeError_emits (ks : List EmitKind) :
    emitsBeforeError (ks.map Pending.emit) = ks := by
  induction ks with
  | nil => rfl
  | cons k rest ih =>
    simp only [List.map_cons, emitsBeforeError, List.takeWhile, Pending.isEmit,
      kindsOf, List.filterMap_cons] at ih ⊢
    simp [ih]

/-- Scheduling positions into a mapped pending list is the mapped scheduling
of the underlying list. -/
theorem arrangeBy_map {α : Type} (ord : List Nat) (f : α → Pending) (rs : List α) :
    arrangeBy ord (rs.map f) = (ord.filterMap fun i => rs[i]?).map f := by
  simp only [arrangeBy, List.getElem?_map, List.map_filterMap]

/-- A schedule over a pending list with in-range positions delivers one entry
per position. -/
theorem filterMap_getElem_length (ord : List Nat) (rs : List EmitKind)
    (h : ∀ i ∈ ord, i < rs.length) :
    (ord.filterMap fun i => rs[i]?).length = ord.length := by
  induction ord with
  | nil => rfl
  | cons i rest ih =>
    have hi : i < rs.length := h i (List.mem_cons_self i rest)
    have hrest : ∀ j ∈ rest, j < rs.length := fun j hj => h j (List.mem_cons_of_mem i hj)
    simp only [List.filterMap_cons]
    rw [List.getElem?_eq_getElem hi]
    simp [ih hrest]

/-- Error-free arrival sequences: only the last arrival's emission can pass
the `skipWhile` stage, so the dispatch publishes at most once — the final
state, exactly when the last arrival's mapped value is defined. -/
theorem runArrivals_cons_emit (n : Nat) (r : EmitKind) (ps : List Pending)
    (es : EngineState) :
    runArrivals n (Pending.emit r :: ps) es = runArrivals n ps (processEmission n es r) :=
  rfl

theorem runArrivals_publishes (n : Nat) (ks : List EmitKind) (es : EngineState)
    (hn : es.emitted + ks.length = n) :
    ((runArrivals n (ks.map Pending.emit) es).1).publishes =
      es.publishes ++
        (match ks.getLast? with
         | some k =>
             if EmitKind.mappedDefined k
             then [((runArrivals n (ks.map Pending.emit) es).1).st]
             else []
         | none => []) := by
  induction ks generalizing es with
  | nil => simp [runArrivals]
  | cons k rest ih =>
    cases rest with
    | nil =>
      have hpass : decide (es.emitted + 1 ≥ n) = true := by
        simp only [List.length_cons, List.length_nil] at hn
        simp; omega
      simp only [List.map_cons, List.map_nil, runArrivals, processEmission, hpass,
        Bool.true_and]
      cases hk : EmitKind.mappedDefined k <;> simp [hk]
    | cons k2 rest2 =>
      have hpass : decide (es.emitted + 1 ≥ n) = false := by
        simp only [List.length_cons] at hn
        simp; omega
      have hstep : processEmission n es k =
          ⟨EmitKind.mergeStep es.st k, es.emitted + 1, es.publishes⟩ := by
        simp [processEmission, hpass]
      have hn' : (EngineState.mk (EmitKind.mergeStep es.st k) (es.emitted + 1)
          es.publishes).emitted + (k2 :: rest2).length = n := by
        simp only [List.length_cons] at hn ⊢
        omega
      have hstep2 : runArrivals n ((k :: k2 :: rest2).map Pending.emit) es
          = runArrivals n ((k2 :: rest2).map Pending.emit) (processEmission n es k) := rfl
      rw [hstep2, hstep, ih _ hn', List.getLast?_cons_cons]

/-- Arrivals consisting only of `ReplaceableState(undefined)` emissions leave
both the state and the publish log untouched. -/
theorem runArrivals_replace_none (n : Nat) (ps : List Pending) (es : EngineState)
    (hall : ∀ p ∈ ps, p = Pending.emit (EmitKind.replace none)) :
    ((runArrivals n ps es).1).st = es.st ∧
      ((runArrivals n ps es).1).publishes = es.publishes := by
  induction ps generalizing es with
  | nil => exact ⟨rfl, rfl⟩
  | cons p rest ih =>
    have hp := hall p (List.mem_cons_self p rest)
    subst hp
    have hrest : ∀ q ∈ rest, q = Pending.emit (EmitKind.replace none) :=
      fun q hq => hall q (List.mem_cons_of_mem _ hq)
    have hstep : processEmission n es (EmitKind.replace none) =
        ⟨es.st, es.emitted + 1, es.publishes⟩ := by
      simp [processEmission, EmitKind.mergeStep, EmitKind.mappedDefined]
    simp only [runArrivals, hstep]
    exact ih _ hrest

/-- Every entry a schedule extracts from a one-element pending list is that
element. -/
theorem arrangeBy_singleton_mem (ord : List Nat) (e : Pending) :
    ∀ p ∈ arrangeBy ord [e], p = e := by
  intro p hp
  simp only [arrangeBy, List.mem_filterMap] at hp
  obtain ⟨i, _, hi⟩ := hp
  cases i with
  | zero =>
    simp only [List.getElem?_cons_zero, Option.some.injEq] at hi
    exact hi.symm
  | succ j => simp at hi

/-- Assigning a key makes it readable. -/
theorem lookup_setKey_self : ∀ (f : Fields) (k : String) (w : Val),
    Fields.lookup (Fields.setKey f k w) k = some w
  | Fields.nil, k, w => by simp [Fields.setKey, Fields.lookup]
  | Fields.cons k0 v0 rest, k, w => by
    by_cases h : k0 = k
    · simp [Fields.setKey, Fields.lookup, h]
    · simp [Fields.setKey, Fields.lookup, h, lookup_setKey_self rest k w]

/-- Assigning a key leaves the other keys unchanged. -/
theorem lookup_setKey_ne : ∀ (f : Fields) (k : String) (w : Val) (k' : String),
    k ≠ k' → Fields.lookup (Fields.setKey f k w) k' = Fields.lookup f k'
  | Fields.nil, k, w, k', hk => by simp [Fields.setKey, Fields.lookup, hk]
  | Fields.cons k0 v0 rest, k, w, k', hk => by
    by_cases h : k0 = k
    · subst h
      simp [Fields.setKey, Fields.lookup, hk]
    · by_cases h' : k0 = k'
      · simp [Fields.setKey, Fields.lookup, h, h', Ne.symm hk]
      · simp [Fields.setKey, Fields.lookup, h, h', lookup_setKey_ne rest k w k' hk]

/-- A key outside an object's key list reads as absent. -/
theorem lookup_eq_none_of_not_mem_keys : ∀ (f : Fields) (k : String),
    k ∉ f.keys → Fields.lookup f k = none
  | Fields.nil, _, _ => rfl
  | Fields.cons k0 v0 rest, k, h => by
    simp only [Fields.keys, List.mem_cons, not_or] at h
    have h0 : ¬ k0 = k := fun hh => h.1 hh.symm
    simp [Fields.lookup, h0, lookup_eq_none_of_not_mem_keys rest k h.2]

/-- How the deep merge of two objects reads at any key: keys present on both
sides hold the recursive merge of their values, keys present on one side hold
that side's value (on incoming objects without duplicate keys, which is every
JavaScript object). -/
theorem mergeFields_lookup : ∀ (f2 f1 : Fields) (k : String), Fields.NodupKeys f2 →
    Fields.lookup (Fields.mergeFields f1 f2) k =
      (match Fields.lookup f1 k, Fields.lookup f2 k with
       | some v, some w => some (Val.deepMerge v w)
       | some v, none => some v
       | none, some w => some w
       | none, none => none)
  | Fields.nil, f1, k, _ => by
    cases h : Fields.lookup f1 k <;> simp [Fields.mergeFields, Fields.lookup, h]
  | Fields.cons k2 w rest, f1, k, hnd => by
    unfold Fields.NodupKeys at hnd
    simp only [Fields.keys, List.nodup_cons] at hnd
    cases hf1 : Fields.lookup f1 k2 with
    | some v =>
      have hm : Fields.mergeFields f1 (Fields.cons k2 w rest)
          = Fields.mergeFields (Fields.setKey f1 k2 (Val.deepMerge v w)) rest := by
        simp [Fields.mergeFields, hf1]
      rw [hm, mergeFields_lookup rest _ k hnd.2]
      by_cases hc : k2 = k
      · subst hc
        rw [lookup_setKey_self, lookup_eq_none_of_not_mem_keys rest k2 hnd.1]
        simp [Fields.lookup, hf1]
      · rw [lookup_setKey_ne f1 k2 _ k hc]
        simp [Fields.lookup, hc]
    | none =>
      have hm : Fields.mergeFields f1 (Fields.cons k2 w rest)
          = Fields.mergeFields (Fields.setKey f1 k2 w) rest := by
        simp [Fields.mergeFields, hf1]
      rw [hm, mergeFields_lookup rest _ k hnd.2]
      by_cases hc : k2 = k
      · subst hc
        rw [lookup_setKey_self, lookup_eq_none_of_not_mem_keys rest k2 hnd.1]
        simp [Fields.lookup, hf1]
      · rw [lookup_setKey_ne f1 k2 _ k hc]
        simp [Fields.lookup, hc]

/-- When either side is not a mapping, the deep merge is plain replacement by
the incoming value. -/
theorem deepMerge_leaf (a b : Val) (h : a.isObj = false ∨ b.isObj = false) :
    Val.deepMerge a b = b := by
  cases a <;> cases b <;> simp_all [Val.deepMerge, Val.isObj]

/-- `indexOf` is stable under appending entries to the table. -/
theorem idxOf_append_some : ∀ (t : List Nat) (c : Nat) (i : Nat) (ext : List Nat),
    idxOf t c = some i → idxOf (t ++ ext) c = some i
  | [], c, i, ext, h => by simp [idxOf] at h
  | c0 :: rest, c, i, ext, h => by
    by_cases hc : c0 = c
    · simp only [idxOf, if_pos hc] at h ⊢
      exact h
    · simp only [idxOf, if_neg hc] at h ⊢
      obtain ⟨j, hj, hji⟩ := Option.map_eq_some'.mp h
      have hres := idxOf_append_some rest c j ext hj
      simp only [List.append_eq] at hres ⊢
      simp [hres, hji]

/-- Pushing an absent constructor makes `indexOf` find it at the old length. -/
theorem idxOf_append_self : ∀ (t : List Nat) (c : Nat),
    idxOf t c = none → idxOf (t ++ [c]) c = some t.length
  | [], c, _ => by simp [idxOf]
  | c0 :: rest, c, h => by
    simp only [idxOf] at h
    by_cases hc : c0 = c
    · simp [if_pos hc] at h
    · rw [if_neg hc, Option.map_eq_none'] at h
      simp [idxOf, hc, idxOf_append_self rest c h]

/-- One `identity` read either leaves the table alone or appends the one new
constructor at the end. -/
theorem identityOf_snd (t : List Nat) (c : Nat) :
    (identityOf t c).2 = t ∨ (identityOf t c).2 = t ++ [c] := by
  cases h : idxOf t c <;> simp [identityOf, h]

/-- After a constructor's first `identity` read it is present in the table,
and the returned identity is `"c" + index`. -/
theorem identityOf_first (t : List Nat) (c : Nat) :
    ∃ i, idxOf ((identityOf t c).2) c = some i ∧
      (identityOf t c).1 = "c" ++ toString i := by
  cases h : idxOf t c with
  | some i => exact ⟨i, by simp [identityOf, h], by simp [identityOf, h]⟩
  | none =>
    have h2 : idxOf (t ++ [c]) c = some t.length := idxOf_append_self t c h
    exact ⟨t.length, by simp [identityOf, h, h2], by simp [identityOf, h, h2]⟩

/-- A constructor already in the table keeps its identity however the table
grows. -/
theorem identityOf_fst_stable (t : List Nat) (c : Nat) (i : Nat) (ext : List Nat)
    (h : idxOf t c = some i) :
    (identityOf (t ++ ext) c).1 = "c" ++ toString i := by
  simp [identityOf, idxOf_append_some t c i ext h]

/-- Identity reads only ever append to the table. -/
theorem runIdentities_ext : ∀ (cs : List Nat) (t : List Nat),
    ∃ ext, runIdentities cs t = t ++ ext
  | [], t => ⟨[], by simp [runIdentities]⟩
  | c :: cs', t => by
    have hstep : runIdentities (c :: cs') t = runIdentities cs' ((identityOf t c).2) := rfl
    obtain ⟨ext, hext⟩ := runIdentities_ext cs' ((identityOf t c).2)
    cases identityOf_snd t c with
    | inl h => exact ⟨ext, by rw [hstep, hext, h]⟩
    | inr h => exact ⟨[c] ++ ext, by rw [hstep, hext, h, List.append_assoc]⟩

/-- A dispatch whose handlers are all asynchronous: the synchronous pass only
collects the pending observables, every handler observes the pre-dispatch
state, and the arrival pass does all the work. -/
theorem dispatch_async (hs : List Handler) (ord : List Nat) (s0 : Val)
    (hne : hs ≠ [])
    (hall : ∀ h ∈ hs, ∀ s, HOutcome.isAsync (h s) = true) :
    dispatch hs ord s0 =
      mkResult
        (runArrivals hs.length
          (arrangeBy ord (hs.map fun h => HOutcome.toPending (h s0))) ⟨s0, 0, []⟩).1
        (hs.map fun _ => s0)
        (if (runArrivals hs.length
              (arrangeBy ord (hs.map fun h => HOutcome.toPending (h s0))) ⟨s0, 0, []⟩).2
         then Terminal.errors else Terminal.completes) := by
  have hph := runPhase1_async hs.length hs ⟨s0, 0, []⟩ hall
  have hemp : hs.isEmpty = false := by
    cases hs with
    | nil => exact absurd rfl hne
    | cons a l => rfl
  simp [dispatch, hemp, hph]

/-- A schedule over an empty list delivers nothing. -/
theorem filterMap_getElem_nil {α : Type} (ord : List Nat) :
    (ord.filterMap fun i => ([] : List α)[i]?) = [] := by
  induction ord with
  | nil => rfl
  | cons i rest ih =>
    simp only [List.filterMap_cons] at ih ⊢
    simp [ih]

/-- A schedule over an empty pending list delivers nothing. -/
theorem arrangeBy_nil_pending (ord : List Nat) : arrangeBy ord ([] : List Pending) = [] :=
  filterMap_getElem_nil ord

/-! ## The claims -/

/-- C1, counterexample: with handler A asynchronously yielding `{a:1}` and
handler B asynchronously failing after A's result arrived, the state after
the dispatch settles is `{b:2,a:1}`, not the pre-dispatch state `{b:2}` —
A's result was merged into the global state before B's failure and is never
rolled back, refuting that the post-dispatch state equals the pre-dispatch
state. -/
theorem c1_counterexample :
    (dispatch [mkAsyncValueHandler objA1, constHandler HOutcome.asyncError]
        [0, 1] objB2).finalState ≠ objB2 ∧
    (dispatch [mkAsyncValueHandler objA1, constHandler HOutcome.asyncError]
        [0, 1] objB2).finalState =
      Val.vObj (Fields.cons "b" (Val.vInt 2) (Fields.cons "a" (Val.vInt 1) Fields.nil)) :=
  ⟨by decide, by decide⟩

/-- C1 (amended): when a handler fails, the results that arrived before the
failure remain committed — the post-dispatch state is the pre-dispatch state
with exactly the pre-failure emissions folded in (so the state is unchanged
only when no result arrived before the failure); arrivals from the failure on
are discarded. -/
theorem c1_amended_prefix_commit (hs : List Handler) (ord : List Nat) (s0 : Val)
    (hall : ∀ h ∈ hs, ∀ s, HOutcome.isAsync (h s) = true)
    (hobj : s0.isObj = true)
    (hscope : ∀ h ∈ hs, ∀ s, HOutcome.objLike (h s) = true) :
    (dispatch hs ord s0).finalState =
      applyEmits s0
        (emitsBeforeError (arrangeBy ord (hs.map fun h => HOutcome.toPending (h s0)))) := by
  cases hs with
  | nil =>
    show s0 = _
    rw [show ([] : List Handler).map (fun h => HOutcome.toPending (h s0)) = [] from rfl,
      arrangeBy_nil_pending]
    rfl
  | cons h rest =>
    rw [dispatch_async _ ord s0 (by simp) hall]
    exact runArrivals_st _ _ _

/-- C1 witness: the amended statement at the C1 counterexample input. -/
theorem c1_amended_prefix_commit_witness :
    objB2.isObj = true ∧
    (dispatch [mkAsyncValueHandler objA1, constHandler HOutcome.asyncError]
        [0, 1] objB2).finalState =
      Val.vObj (Fields.cons "b" (Val.vInt 2) (Fields.cons "a" (Val.vInt 1) Fields.nil)) := by
  have hall : ∀ h ∈ ([mkAsyncValueHandler objA1, constHandler HOutcome.asyncError] :
      List Handler), ∀ s, HOutcome.isAsync (h s) = true := by
    intro h hm s
    cases hm with
    | head => rfl
    | tail _ hm2 =>
      cases hm2 with
      | head => rfl
      | tail _ hm3 => cases hm3
  have hscope : ∀ h ∈ ([mkAsyncValueHandler objA1, constHandler HOutcome.asyncError] :
      List Handler), ∀ s, HOutcome.objLike (h s) = true := by
    intro h hm s
    cases hm with
    | head => rfl
    | tail _ hm2 =>
      cases hm2 with
      | head => rfl
      | tail _ hm3 => cases hm3
  have h := c1_amended_prefix_commit
    [mkAsyncValueHandler objA1, constHandler HOutcome.asyncError] [0, 1] objB2
    hall (by decide) hscope
  exact ⟨by decide, by rw [h]; decide⟩

/-- C2, counterexample: a dispatch in which handler B's asynchronous
computation fails resolves successfully and is never rejected — the catch
stage swallows the error — refuting that such a dispatch is rejected and
never resolved. -/
theorem c2_counterexample :
    (dispatch [mkAsyncValueHandler objA1, constHandler HOutcome.asyncError]
        [0, 1] objB2).rejected = false ∧
    (dispatch [mkAsyncValueHandler objA1, constHandler HOutcome.asyncError]
        [0, 1] objB2).resolved = true :=
  ⟨by decide, by decide⟩

/-- C2 (amended): the asynchronous completion returned by every dispatch
resolves and is never rejected, whether or not any handler errors: the
`catch` stage replaces any pipeline error with an empty completing
observable, so the promise's reject callback is unreachable. -/
theorem c2_amended_always_resolves (hs : List Handler) (ord : List Nat) (s0 : Val) :
    (dispatch hs ord s0).rejected = false ∧ (dispatch hs ord s0).resolved = true := by
  cases hs with
  | nil => exact ⟨rfl, rfl⟩
  | cons h rest =>
    simp only [dispatch, List.isEmpty_cons, Bool.false_eq_true, if_false]
    split
    · exact mkResult_flags _ _ _
    · exact mkResult_flags _ _ _

/-- C3, counterexample: two handlers registered in order A then B, returning
`{k:1}` and `{k:2}` respectively; if B's result arrives first the final state
is `{k:1}`, if A's arrives first it is `{k:2}` — the post-dispatch state
depends on wall-clock completion order, refuting registration-order merging. -/
theorem c3_counterexample :
    (dispatch [mkAsyncValueHandler objK1, mkAsyncValueHandler objK2] [0, 1] objEmpty).finalState
      ≠
    (dispatch [mkAsyncValueHandler objK1, mkAsyncValueHandler objK2] [1, 0] objEmpty).finalState := by
  decide

/-- C3 (amended): handler results are merged in arrival order, not
registration order — for handlers with fixed defined results, the final state
is the fold of the deep merge over the results in the order they complete, so
it varies with completion order whenever results conflict. -/
theorem c3_amended_arrival_order (fs : List Val) (ord : List Nat) (s0 : Val)
    (hobj : s0.isObj = true) (hall : ∀ v ∈ fs, v.isObj = true) :
    (dispatch (fs.map mkAsyncValueHandler) ord s0).finalState =
      (ord.filterMap fun i => fs[i]?).foldl Val.deepMerge s0 := by
  cases fs with
  | nil =>
    show s0 = _
    rw [filterMap_getElem_nil]
    rfl
  | cons f rest =>
    have hasync : ∀ h ∈ (f :: rest).map mkAsyncValueHandler, ∀ s,
        HOutcome.isAsync (h s) = true := by
      intro h hm s
      obtain ⟨v, _, rfl⟩ := List.mem_map.mp hm
      rfl
    rw [dispatch_async _ ord s0 (by simp) hasync]
    show (runArrivals _ _ _).1.st = _
    have hpend : ((f :: rest).map mkAsyncValueHandler).map
        (fun h => HOutcome.toPending (h s0)) =
        (f :: rest).map fun v => Pending.emit (EmitKind.value (some v)) := by
      rw [List.map_map]
      rfl
    rw [hpend, arrangeBy_map, runArrivals_st]
    have hemit : (ord.filterMap fun i => (f :: rest)[i]?).map
        (fun v => Pending.emit (EmitKind.value (some v))) =
        ((ord.filterMap fun i => (f :: rest)[i]?).map
          (fun v => EmitKind.value (some v))).map Pending.emit := by
      rw [List.map_map]
      rfl
    rw [hemit, emitsBeforeError_emits]
    show ((ord.filterMap fun i => (f :: rest)[i]?).map
      (fun v => EmitKind.value (some v))).foldl EmitKind.mergeStep s0 = _
    rw [List.foldl_map]
    rfl

/-- C3 witness: the amended statement at the C3 counterexample inputs. -/
theorem c3_amended_arrival_order_witness :
    objEmpty.isObj = true ∧
    (dispatch [mkAsyncValueHandler objK1, mkAsyncValueHandler objK2] [1, 0] objEmpty).finalState
      = objK1 := by
  have h := c3_amended_arrival_order [objK1, objK2] [1, 0] objEmpty (by decide)
    (by intro v hv; cases hv with
        | head => decide
        | tail _ h2 =>
          cases h2 with
          | head => decide
          | tail _ h3 => cases h3)
  simp only [List.map_cons, List.map_nil] at h
  exact ⟨by decide, by rw [h]; decide⟩

/-- C4, counterexample: handler A yields `{a:1}` and handler B yields
`undefined`, arriving in that order; A's result is committed to the state, yet
nothing is ever published to the state stream — the publish decision looks
only at the last emission, refuting that a dispatch with at least one defined
result and no failure publishes the accumulated state exactly once. -/
theorem c4_counterexample :
    (dispatch [mkAsyncValueHandler objA1,
        constHandler (HOutcome.asyncEmit (EmitKind.value none))] [0, 1] objEmpty).publishes
      = [] ∧
    (dispatch [mkAsyncValueHandler objA1,
        constHandler (HOutcome.asyncEmit (EmitKind.value none))] [0, 1] objEmpty).finalState
      = objA1 :=
  ⟨by decide, by decide⟩

/-- C4 (amended): for an error-free dispatch the state stream sees at most one
publish, only after all handler results have arrived: the committed state is
published exactly when the last-arriving result is defined; if the last
arrival is `undefined` nothing is published even when earlier defined results
were committed.  (Commits themselves happen incrementally as each result
arrives, not once at settle time.) -/
theorem c4_amended_last_arrival_publish (rs : List EmitKind) (ord : List Nat) (s0 : Val)
    (hne : rs ≠ []) (hperm : ord.Perm (List.range rs.length))
    (hobj : s0.isObj = true) (hscope : ∀ r ∈ rs, EmitKind.objLike r = true) :
    (dispatch (rs.map asyncEmitHandler) ord s0).publishes =
      (match (ord.filterMap fun i => rs[i]?).getLast? with
       | some k =>
           if EmitKind.mappedDefined k
           then [(dispatch (rs.map asyncEmitHandler) ord s0).finalState]
           else []
       | none => []) := by
  have hasync : ∀ h ∈ rs.map asyncEmitHandler, ∀ s, HOutcome.isAsync (h s) = true := by
    intro h hm s
    obtain ⟨r, _, rfl⟩ := List.mem_map.mp hm
    rfl
  have hne' : rs.map asyncEmitHandler ≠ [] := by
    intro hcon
    exact hne (List.map_eq_nil_iff.mp hcon)
  rw [dispatch_async _ ord s0 hne' hasync]
  have hpend : (rs.map asyncEmitHandler).map (fun h => HOutcome.toPending (h s0)) =
      rs.map Pending.emit := by
    rw [List.map_map]
    rfl
  rw [hpend, arrangeBy_map]
  have hrange : ∀ i ∈ ord, i < rs.length := by
    intro i hi
    exact List.mem_range.mp (hperm.mem_iff.mp hi)
  have hlen : (ord.filterMap fun i => rs[i]?).length = rs.length := by
    rw [filterMap_getElem_length ord rs hrange, hperm.length_eq, List.length_range]
  have hn : (EngineState.mk s0 0 []).emitted + (ord.filterMap fun i => rs[i]?).length
      = (rs.map asyncEmitHandler).length := by
    simp [hlen]
  have hpub := runArrivals_publishes ((rs.map asyncEmitHandler).length)
    (ord.filterMap fun i => rs[i]?) ⟨s0, 0, []⟩ hn
  show (runArrivals _ _ _).1.publishes = _
  rw [hpub]
  simp only [List.nil_append, List.length_map]
  rfl

/-- C4 witness: the amended statement at a concrete input — one handler
yielding `{a:1}` publishes the merged state exactly once. -/
theorem c4_amended_last_arrival_publish_witness :
    ([EmitKind.value (some objA1)] : List EmitKind) ≠ [] ∧
    List.Perm [0] (List.range 1) ∧
    objEmpty.isObj = true ∧
    (dispatch ([EmitKind.value (some objA1)].map asyncEmitHandler) [0] objEmpty).publishes =
      [(dispatch ([EmitKind.value (some objA1)].map asyncEmitHandler) [0] objEmpty).finalState] := by
  refine ⟨by decide, by decide, by decide, ?_⟩
  have h := c4_amended_last_arrival_publish [EmitKind.value (some objA1)] [0] objEmpty
    (by decide) (by decide) (by decide)
    (by intro r hr; cases hr with
        | head => decide
        | tail _ h2 => cases h2)
  rw [h]
  decide

/-- C5, counterexample: a first handler whose observable emits `{a:1}`
synchronously at subscribe time is merged into the global state before the
second handler is invoked, so the second handler observes `{a:1}` rather than
the pre-dispatch state `{}` — refuting that every handler of a dispatch is
invoked with the same pre-dispatch snapshot. -/
theorem c5_counterexample :
    (dispatch [constHandler (HOutcome.syncEmit (EmitKind.value (some objA1))),
        constHandler (HOutcome.asyncEmit (EmitKind.value none))] [0] objEmpty).observations
      = [objEmpty, objA1] ∧ objA1 ≠ objEmpty :=
  ⟨by decide, by decide⟩

/-- C5 (amended): each handler is invoked with the global state current at its
invocation time; when no handler emits synchronously — in particular when all
handler observables complete asynchronously — all handlers of a dispatch do
observe the same pre-dispatch snapshot. -/
theorem c5_amended_async_same_snapshot (hs : List Handler) (ord : List Nat) (s0 : Val)
    (hall : ∀ h ∈ hs, ∀ s, HOutcome.isAsync (h s) = true) :
    (dispatch hs ord s0).observations = hs.map fun _ => s0 := by
  cases hs with
  | nil => rfl
  | cons h rest =>
    rw [dispatch_async _ ord s0 (by simp) hall]
    rfl

/-- C5 witness: the amended statement at a concrete all-asynchronous input. -/
theorem c5_amended_async_same_snapshot_witness :
    (dispatch [mkAsyncValueHandler objA1, constHandler HOutcome.asyncError]
        [0, 1] objB2).observations = [objB2, objB2] := by
  have hall : ∀ h ∈ ([mkAsyncValueHandler objA1, constHandler HOutcome.asyncError] :
      List Handler), ∀ s, HOutcome.isAsync (h s) = true := by
    intro h hm s
    cases hm with
    | head => rfl
    | tail _ hm2 =>
      cases hm2 with
      | head => rfl
      | tail _ hm3 => cases hm3
  have h := c5_amended_async_same_snapshot
    [mkAsyncValueHandler objA1, constHandler HOutcome.asyncError] [0, 1] objB2 hall
  rw [h]
  rfl

/-- C6 (confirmed): a defined plain handler result is deep-merged into the
current state — nested mapping keys merge recursively (keys on both sides
recurse, keys on one side are kept) and non-mapping leaves are replaced by the
incoming value — while a `ReplaceableState` wrapping a defined value replaces
the state outright; in particular `{a:1,b:{c:2}}` merged with `{b:{d:3}}`
gives `{a:1,b:{c:2,d:3}}` and a replacement wrapping `{x:9}` gives exactly
`{x:9}`. -/
theorem c6_merge_replace_semantics :
    ((dispatch [mkAsyncValueHandler incBD] [0] preAB).finalState = mergedABCD ∧
     (dispatch [mkReplaceHandler objX9] [0] preAB).finalState = objX9) ∧
    (∀ (s0 v : Val), s0.isObj = true → v.isObj = true →
       (dispatch [mkAsyncValueHandler v] [0] s0).finalState = Val.deepMerge s0 v) ∧
    (∀ (s0 v : Val), (dispatch [mkReplaceHandler v] [0] s0).finalState = v) ∧
    (∀ (f2 f1 : Fields) (k : String), Fields.NodupKeys f2 →
       Fields.lookup (Fields.mergeFields f1 f2) k =
         (match Fields.lookup f1 k, Fields.lookup f2 k with
          | some v, some w => some (Val.deepMerge v w)
          | some v, none => some v
          | none, some w => some w
          | none, none => none)) ∧
    (∀ (a b : Val), a.isObj = false ∨ b.isObj = false → Val.deepMerge a b = b) := by
  refine ⟨⟨by decide, by decide⟩, ?_, ?_, mergeFields_lookup, deepMerge_leaf⟩
  · intro s0 v _ _
    rfl
  · intro s0 v
    rfl

/-- C6 witness: the general merge, replace and key-lookup statements at
concrete inputs with their hypotheses discharged. -/
theorem c6_merge_replace_semantics_witness :
    preAB.isObj = true ∧ incBD.isObj = true ∧
    Fields.NodupKeys (Fields.cons "a" (Val.vInt 1) Fields.nil) ∧
    (dispatch [mkAsyncValueHandler incBD] [0] preAB).finalState = Val.deepMerge preAB incBD ∧
    Fields.lookup (Fields.mergeFields Fields.nil (Fields.cons "a" (Val.vInt 1) Fields.nil)) "a" =
      (match Fields.lookup Fields.nil "a",
          Fields.lookup (Fields.cons "a" (Val.vInt 1) Fields.nil) "a" with
       | some v, some w => some (Val.deepMerge v w)
       | some v, none => some v
       | none, some w => some w
       | none, none => none) :=
  ⟨by decide, by decide, by decide,
   c6_merge_replace_semantics.2.1 preAB incBD (by decide) (by decide),
   c6_merge_replace_semantics.2.2.2.1 (Fields.cons "a" (Val.vInt 1) Fields.nil)
     Fields.nil "a" (by decide)⟩

/-- C7, counterexample: two published states that are distinct allocations
with identical structure; the identity selector's projections are structurally
equal, yet the subscriber is notified for both states — the comparison on
line 95 is `!==` (reference identity for objects), not structural equality —
refuting that a structurally equal projection produces no notification. -/
theorem c7_counterexample :
    JVal.structEq (select (JVal.obj 1 objX9) idSel) (select (JVal.obj 0 objX9) idSel) = true ∧
    runSelect idSel [JVal.obj 0 objX9, JVal.obj 1 objX9] =
      [JVal.obj 0 objX9, JVal.obj 1 objX9] :=
  ⟨by decide, by decide⟩

/-- C7 (amended): the consumer is invoked exactly when the new projection is
strictly unequal (JavaScript `===`: value equality for `undefined` and
numbers, reference identity for objects) to the projection of the previously
stored state (initially `undefined`): the sequence `{count:1}`, `{count:1}`,
`{count:2}` still notifies a count selector exactly twice, equal primitive
projections are deduplicated, but structurally equal object projections from
distinct allocations notify again. -/
theorem c7_amended_strict_equality :
    (runSelect countSel [JVal.obj 0 cnt1, JVal.obj 1 cnt1, JVal.obj 2 cnt2] =
       [JVal.num 1, JVal.num 2]) ∧
    (∀ (i j : Nat) (c : Val), i ≠ j →
       runSelect idSel [JVal.obj i c, JVal.obj j c] = [JVal.obj i c, JVal.obj j c]) ∧
    (∀ n : Int, runSelect idSel [JVal.num n, JVal.num n] = [JVal.num n]) ∧
    (∀ (sel : StateSelector) (ss : SelectSub) (st : JVal),
       (selectStep sel ss st).notifications =
         (if JVal.strictEq (select st sel) (select ss.previousState sel)
          then ss.notifications
          else ss.notifications ++ [select st sel])) := by
  refine ⟨by decide, ?_, ?_, ?_⟩
  · intro i j c hij
    have hbeq : (j == i) = false := beq_eq_false_iff_ne.mpr (Ne.symm hij)
    simp [runSelect, selectStep, select, idSel, JVal.strictEq, hbeq]
  · intro n
    simp [runSelect, selectStep, select, idSel, JVal.strictEq]
  · intro sel ss st
    simp only [selectStep]
    split <;> rfl

/-- C7 witness: the distinct-allocation statement of the amended claim at a
concrete input. -/
theorem c7_amended_strict_equality_witness :
    (0 : Nat) ≠ 1 ∧
    runSelect idSel [JVal.obj 0 objK1, JVal.obj 1 objK1] =
      [JVal.obj 0 objK1, JVal.obj 1 objK1] :=
  ⟨by decide, c7_amended_strict_equality.2.1 0 1 objK1 (by decide)⟩

/-- C8, counterexample: `StateStream` is a `BehaviorSubject`, which replays
its current value to a new subscriber synchronously; subscribing through the
identity selector while the stream holds the (defined) initial state `{}`
invokes the consumer once with no publish having occurred after the
subscription — refuting that the consumer is never invoked until a later
publish. -/
theorem c8_counterexample :
    subscribeNotifications idSel (JVal.obj 0 objEmpty) [] = [JVal.obj 0 objEmpty] ∧
    subscribeNotifications idSel (JVal.obj 0 objEmpty) [] ≠ [] :=
  ⟨by decide, by decide⟩

/-- C8 (amended): subscribing through a selector delivers a synchronous
initial notification carrying the current state's projection whenever that
projection is strictly unequal to `undefined`; only a projection that is
`undefined` (strictly equal to the initial previous value) suppresses the
initial notification. -/
theorem c8_amended_initial_replay (sel : StateSelector) (current : JVal) :
    subscribeNotifications sel current [] =
      (if JVal.strictEq (select current sel) JVal.undef
       then [] else [select current sel]) := by
  show (selectStep sel ⟨JVal.undef, []⟩ current).notifications = _
  simp only [selectStep]
  rw [show select JVal.undef sel = JVal.undef from rfl]
  split <;> rfl

/-- C9 (confirmed): the identity table only grows — one read appends at most
the one looked-up constructor, any sequence of reads only appends — and once
a constructor's identity has been assigned, every later read of the same
constructor (two instances of one action class share their constructor)
returns the same identity string at every point in the process lifetime, so
both instances index the same handler list in `Reflux.subscriptions`. -/
theorem c9_identity_stability (t : List Nat) (c : Nat) (cs : List Nat) :
    (∃ ext, (identityOf t c).2 = t ++ ext) ∧
    (∃ ext, runIdentities cs (identityOf t c).2 = (identityOf t c).2 ++ ext) ∧
    (identityOf (runIdentities cs (identityOf t c).2) c).1 = (identityOf t c).1 := by
  obtain ⟨i, hidx, hfst⟩ := identityOf_first t c
  obtain ⟨ext, hext⟩ := runIdentities_ext cs (identityOf t c).2
  refine ⟨?_, ⟨ext, hext⟩, ?_⟩
  · cases identityOf_snd t c with
    | inl h => exact ⟨[], by simp [h]⟩
    | inr h => exact ⟨[c], h⟩
  · rw [hext, identityOf_fst_stable _ c i ext hidx, hfst]

/-- C10 (confirmed): a handler result that is a `ReplaceableState` wrapping
`undefined` is a no-op — the merge stage leaves the state untouched and its
mapped value is `undefined`, exactly as for a plain `undefined` result, so it
neither changes the engine's state nor makes the dispatch publish: a dispatch
whose only handler emits it ends with the pre-dispatch state and an empty
publish log. -/
theorem c10_replace_undefined_noop :
    (∀ (n : Nat) (es : EngineState),
       processEmission n es (EmitKind.replace none) =
         ⟨es.st, es.emitted + 1, es.publishes⟩ ∧
       processEmission n es (EmitKind.replace none) =
         processEmission n es (EmitKind.value none)) ∧
    (∀ (s0 : Val) (ord : List Nat),
       (dispatch [constHandler (HOutcome.asyncEmit (EmitKind.replace none))] ord s0).finalState
         = s0 ∧
       (dispatch [constHandler (HOutcome.asyncEmit (EmitKind.replace none))] ord s0).publishes
         = []) := by
  constructor
  · intro n es
    constructor
    · simp [processEmission, EmitKind.mergeStep, EmitKind.mappedDefined]
    · simp [processEmission, EmitKind.mergeStep, EmitKind.mappedDefined]
  · intro s0 ord
    have hall : ∀ h ∈ ([constHandler (HOutcome.asyncEmit (EmitKind.replace none))] :
        List Handler), ∀ s, HOutcome.isAsync (h s) = true := by
      intro h hm s
      cases hm with
      | head => rfl
      | tail _ hm2 => cases hm2
    rw [dispatch_async _ ord s0 (by simp) hall]
    have hmem : ∀ p ∈ arrangeBy ord [Pending.emit (EmitKind.replace none)],
        p = Pending.emit (EmitKind.replace none) :=
      arrangeBy_singleton_mem ord _
    have hrun := runArrivals_replace_none 1
      (arrangeBy ord [Pending.emit (EmitKind.replace none)]) ⟨s0, 0, []⟩ hmem
    exact ⟨hrun.1, hrun.2⟩
